import Mathlib

/-!
Verification of the users CRUD service (`apps/api/src/users/users.service.ts`)
and the k6 load-profile script (`apps/k6/load-test.js`) of the nestjs-k6
repository.

The service holds a mutable array `users : User[]` and a counter
`nextId : number`; we embed it as explicit state passing over `ServiceState`.
Exceptions (`NotFoundException`) become `Except ServiceError`.
-/

namespace NestjsK6

/-- The `User` interface: `{ id: number; name: string; email: string }`. -/
structure User where
  id : Nat
  name : String
  email : String
deriving Repr, DecidableEq

/-- Modelled from the spec: `CreateUserDto` (its file `dto/create-user.dto.ts`
is not among the provided sources). The spec's data model and HTTP table give
the create body as `{name, email}`. -/
structure CreateUserDto where
  name : String
  email : String
deriving Repr, DecidableEq

/-- Modelled from the spec: `UpdateUserDto` (its file `dto/update-user.dto.ts`
is not among the provided sources). The spec says update takes
"partial fields" of the record, overwriting "only the provided fields": so an
optional `name` and an optional `email`, with `none` meaning the field is
absent from the request body. -/
structure UpdateUserDto where
  name : Option String
  email : Option String
deriving Repr, DecidableEq

/-- The only error the service raises: `NotFoundException` with a message. -/
inductive ServiceError where
  | notFound (msg : String)
deriving Repr, DecidableEq

/-- The mutable fields of `UsersService`: `private nextId = 4` and
`private users: User[]`. -/
structure ServiceState where
  nextId : Nat
  users : List User
deriving Repr, DecidableEq

/-- The state at process start: the three seeded records and `nextId = 4`. -/
def initialState : ServiceState :=
  { nextId := 4
  , users :=
      [ { id := 1, name := "Alice Johnson", email := "alice@example.com" }
      , { id := 2, name := "Bob Smith", email := "bob@example.com" }
      , { id := 3, name := "Charlie Brown", email := "charlie@example.com" } ] }

/-- Message of the `NotFoundException`, built exactly as in the source:
`` `User #${id} not found` ``. -/
def notFoundMsg (id : Nat) : String :=
  "User #" ++ toString id ++ " not found"

/-- Source: `findAll(): User[] \x7b return this.users; \x7d`. -/
def findAll (s : ServiceState) : List User :=
  s.users

/-- Source `findOne(id)`: `this.users.find((u) => u.id === id)`; throws
`NotFoundException` if the search misses, otherwise returns the user. -/
def findOne (s : ServiceState) (id : Nat) : Except ServiceError User :=
  match s.users.find? (fun u => u.id == id) with
  | some u => .ok u
  | none => .error (.notFound (notFoundMsg id))

/-- Source `create(dto)`: builds `\x7b id: this.nextId++, ...dto \x7d`, pushes it onto
the array and returns it. -/
def create (s : ServiceState) (dto : CreateUserDto) : User × ServiceState :=
  let user : User := { id := s.nextId, name := dto.name, email := dto.email }
  (user, { nextId := s.nextId + 1, users := s.users ++ [user] })

/-- Semantics of `Object.assign(user, dto)`: each field present in the dto overwrites the
corresponding field of the user; absent fields are left alone. `id` is not a
field of `UpdateUserDto`, so it is never touched. -/
def assignUser (u : User) (dto : UpdateUserDto) : User :=
  { u with name := dto.name.getD u.name, email := dto.email.getD u.email }

/-- The effect of `update`'s in-place `Object.assign` on the array: the user
object returned by `findOne` is the first element whose id matches, and it is
aliased into the array, so exactly that element is replaced. -/
def updateUsers (id : Nat) (dto : UpdateUserDto) : List User → List User
  | [] => []
  | u :: rest =>
      if u.id == id then assignUser u dto :: rest
      else u :: updateUsers id dto rest

/-- Source `update(id, dto)`: `const user = this.findOne(id)` (propagating the
`NotFoundException`), then `Object.assign(user, dto)` and `return user`. -/
def update (s : ServiceState) (id : Nat) (dto : UpdateUserDto) :
    Except ServiceError (User × ServiceState) :=
  match findOne s id with
  | .error e => .error e
  | .ok u => .ok (assignUser u dto, { s with users := updateUsers id dto s.users })

/-- JavaScript `Array.prototype.findIndex`: index of the first element
satisfying the predicate, `-1` if none does. -/
def findIndex (p : User → Bool) (l : List User) : Int :=
  match l.findIdx? p with
  | some j => (j : Int)
  | none => -1

/-- Source `remove(id)`: `findIndex((u) => u.id === id)`; throws `NotFoundException`
when the index is `-1`, otherwise `splice(index, 1)`. -/
def remove (s : ServiceState) (id : Nat) : Except ServiceError ServiceState :=
  let index := findIndex (fun u => u.id == id) s.users
  if index = -1 then .error (.notFound (notFoundMsg id))
  else .ok { s with users := s.users.eraseIdx index.toNat }

/-- One client-visible operation on the service. -/
inductive Op where
  | create (dto : CreateUserDto)
  | update (id : Nat) (dto : UpdateUserDto)
  | remove (id : Nat)
  | findOne (id : Nat)
  | findAll
deriving Repr, DecidableEq

/-- The state after one operation. A thrown `NotFoundException` aborts the
handler before any mutation (in `update` the throw happens inside `findOne`,
before `Object.assign`; in `remove` before `splice`), so on error the state
is unchanged. -/
def applyOp (s : ServiceState) : Op → ServiceState
  | .create dto => (create s dto).2
  | .update id dto =>
      match update s id dto with
      | .ok (_, s') => s'
      | .error _ => s
  | .remove id =>
      match remove s id with
      | .ok s' => s'
      | .error _ => s
  | .findOne _ => s
  | .findAll => s

/-- The state after a sequence of operations. -/
def run (s : ServiceState) (ops : List Op) : ServiceState :=
  ops.foldl applyOp s

/-- The service invariant: the counter is positive, every stored id is
positive and below the counter, and the stored ids are pairwise distinct. -/
def Inv (s : ServiceState) : Prop :=
  0 < s.nextId ∧ (∀ i ∈ s.users.map User.id, 0 < i ∧ i < s.nextId) ∧
    (s.users.map User.id).Nodup

instance (s : ServiceState) : Decidable (Inv s) := by
  unfold Inv; infer_instance

/-! ### Characterization lemmas for the operations -/

theorem findOne_ok_of_mem {s : ServiceState} {i : Nat}
    (h : i ∈ s.users.map User.id) : ∃ u, findOne s i = .ok u := by
  rcases List.mem_map.mp h with ⟨u, hu, hid⟩
  cases hf : s.users.find? (fun x => x.id == i) with
  | none => exact absurd (List.find?_eq_none.mp hf u hu) (by simp [hid])
  | some v => exact ⟨v, by simp [findOne, hf]⟩

theorem findOne_error_of_not_mem {s : ServiceState} {i : Nat}
    (h : i ∉ s.users.map User.id) :
    findOne s i = .error (.notFound (notFoundMsg i)) := by
  have hf : s.users.find? (fun x => x.id == i) = none := by
    refine List.find?_eq_none.mpr fun x hx hpx => h ?_
    exact List.mem_map.mpr ⟨x, hx, by simpa using hpx⟩
  simp [findOne, hf]

theorem findOne_ok_elim {s : ServiceState} {i : Nat} {u : User}
    (h : findOne s i = .ok u) :
    s.users.find? (fun x => x.id == i) = some u := by
  unfold findOne at h
  cases hf : s.users.find? (fun x => x.id == i) <;> simp [hf] at h
  rw [h]

/-- The user `findOne` returns is the first element with the sought id. -/
theorem findOne_ok_decomp {s : ServiceState} {i : Nat} {u : User}
    (h : findOne s i = .ok u) :
    u.id = i ∧ ∃ pre post, s.users = pre ++ u :: post ∧ ∀ x ∈ pre, x.id ≠ i := by
  have hf := findOne_ok_elim h
  rcases List.find?_eq_some.mp hf with ⟨hp, pre, post, hdec, hpre⟩
  refine ⟨by simpa using hp, pre, post, hdec, fun x hx => ?_⟩
  have := hpre x hx
  simpa using this

theorem updateUsers_map_id (i : Nat) (dto : UpdateUserDto) (l : List User) :
    (updateUsers i dto l).map User.id = l.map User.id := by
  induction l with
  | nil => rfl
  | cons u rest ih =>
      by_cases hu : u.id = i
      · simp [updateUsers, hu, assignUser]
      · simp [updateUsers, hu, ih]

theorem updateUsers_first (i : Nat) (dto : UpdateUserDto) (pre : List User)
    (u : User) (post : List User) (hpre : ∀ x ∈ pre, x.id ≠ i) (hu : u.id = i) :
    updateUsers i dto (pre ++ u :: post) = pre ++ assignUser u dto :: post := by
  induction pre with
  | nil => simp [updateUsers, hu]
  | cons x rest ih =>
      have hx : x.id ≠ i := hpre x (by simp)
      have ih' := ih fun y hy => hpre y (by simp [hy])
      simp [updateUsers, hx, ih']

theorem update_ok_elim {s : ServiceState} {i : Nat} {dto : UpdateUserDto}
    {u' : User} {s₂ : ServiceState} (h : update s i dto = .ok (u', s₂)) :
    (∃ u, findOne s i = .ok u ∧ u' = assignUser u dto) ∧
      s₂.users = updateUsers i dto s.users ∧ s₂.nextId = s.nextId := by
  unfold update at h
  cases hf : findOne s i with
  | error e => simp [hf] at h
  | ok u =>
      simp only [hf] at h
      cases h
      exact ⟨⟨u, rfl, rfl⟩, rfl, rfl⟩

theorem update_error_of_not_mem {s : ServiceState} {i : Nat}
    (dto : UpdateUserDto) (h : i ∉ s.users.map User.id) :
    update s i dto = .error (.notFound (notFoundMsg i)) := by
  unfold update
  rw [findOne_error_of_not_mem h]

theorem update_ok_of_mem {s : ServiceState} {i : Nat} (dto : UpdateUserDto)
    (h : i ∈ s.users.map User.id) : ∃ r, update s i dto = .ok r := by
  rcases findOne_ok_of_mem h with ⟨u, hu⟩
  exact ⟨_, by unfold update; rw [hu]⟩

/-- Resolution of `remove`'s `findIndex`/`-1` plumbing into a `match` on
`findIdx?`. -/
theorem remove_eq (s : ServiceState) (i : Nat) :
    remove s i =
      match s.users.findIdx? (fun u => u.id == i) with
      | none => .error (.notFound (notFoundMsg i))
      | some j => .ok { s with users := s.users.eraseIdx j } := by
  unfold remove findIndex
  cases hf : s.users.findIdx? (fun u => u.id == i) with
  | none => simp [hf]
  | some j =>
      have hj : ((j : Nat) : Int) ≠ -1 := by omega
      simp [hf, hj]

theorem remove_error_of_not_mem {s : ServiceState} {i : Nat}
    (h : i ∉ s.users.map User.id) :
    remove s i = .error (.notFound (notFoundMsg i)) := by
  have hf : s.users.findIdx? (fun u => u.id == i) = none := by
    refine List.findIdx?_eq_none_iff.mpr fun x hx => ?_
    by_contra hcon
    simp only [Bool.not_eq_false, beq_iff_eq] at hcon
    exact h (List.mem_map.mpr ⟨x, hx, hcon⟩)
  rw [remove_eq, hf]

theorem remove_ok_of_mem {s : ServiceState} {i : Nat}
    (h : i ∈ s.users.map User.id) : ∃ s', remove s i = .ok s' := by
  rcases List.mem_map.mp h with ⟨u, hu, hid⟩
  have hex : ∃ x ∈ s.users, (x.id == i) = true := ⟨u, hu, by simp [hid]⟩
  have hf := List.findIdx?_eq_some_of_exists hex
  exact ⟨_, by rw [remove_eq, hf]⟩

/-- Operation `remove` deletes exactly the first element whose id matches, leaving the
prefix before it and the suffix after it untouched, and does not touch the
counter. -/
theorem remove_ok_decomp {s : ServiceState} {i : Nat} {s' : ServiceState}
    (h : remove s i = .ok s') :
    ∃ pre u post, s.users = pre ++ u :: post ∧ u.id = i ∧
      (∀ x ∈ pre, x.id ≠ i) ∧ s'.users = pre ++ post ∧ s'.nextId = s.nextId := by
  rw [remove_eq] at h
  cases hf : s.users.findIdx? (fun u => u.id == i) with
  | none => rw [hf] at h; cases h
  | some j =>
      rw [hf] at h
      cases h
      rcases List.findIdx?_eq_some_iff_findIdx_eq.mp hf with ⟨hjlt, hidx⟩
      have hgetp : (fun u => u.id == i) s.users[j] = true ∧
          ∀ (k : Nat) (hk : k < j), (fun u => u.id == i) s.users[k] = false :=
        (List.findIdx_eq hjlt).mp hidx
      refine ⟨s.users.take j, s.users[j], s.users.drop (j + 1), ?_, ?_, ?_, ?_, ?_⟩
      · rw [← List.drop_eq_getElem_cons hjlt, List.take_append_drop]
      · simpa using hgetp.1
      · intro x hx
        rcases List.mem_take_iff_getElem.mp hx with ⟨k, hk, hxk⟩
        have hkj : k < j := lt_of_lt_of_le hk inf_le_left
        have := hgetp.2 k hkj
        rw [← hxk]
        simpa using this
      · rw [List.eraseIdx_eq_take_drop_succ]
      · rfl

theorem remove_ok_sublist {s : ServiceState} {i : Nat} {s' : ServiceState}
    (h : remove s i = .ok s') :
    s'.users.Sublist s.users ∧ s'.nextId = s.nextId := by
  rw [remove_eq] at h
  cases hf : s.users.findIdx? (fun u => u.id == i) with
  | none => rw [hf] at h; cases h
  | some j =>
      rw [hf] at h
      cases h
      exact ⟨List.eraseIdx_sublist _ j, rfl⟩

/-! ### The invariant holds initially and is preserved -/

theorem inv_initialState : Inv initialState := by decide

theorem inv_applyOp {s : ServiceState} (h : Inv s) (op : Op) :
    Inv (applyOp s op) := by
  obtain ⟨hpos, hall, hnodup⟩ := h
  cases op with
  | create dto =>
      refine ⟨by simp [applyOp, create], ?_, ?_⟩
      · intro i hi
        simp only [applyOp, create, List.map_append, List.map_cons, List.map_nil,
          List.mem_append, List.mem_cons, List.not_mem_nil, or_false] at hi ⊢
        rcases hi with hi | hi
        · rcases hall i hi with ⟨h1, h2⟩
          exact ⟨h1, by omega⟩
        · subst hi
          exact ⟨hpos, by omega⟩
      · simp only [applyOp, create, List.map_append, List.map_cons, List.map_nil]
        rw [List.nodup_append]
        refine ⟨hnodup, List.nodup_singleton _, ?_⟩
        intro i hi hmem
        rcases hall i hi with ⟨_, h2⟩
        simp only [List.mem_cons, List.not_mem_nil, or_false] at hmem
        omega
  | update id dto =>
      cases hu : update s id dto with
      | error e => simpa [applyOp, hu] using ⟨hpos, hall, hnodup⟩
      | ok r =>
          obtain ⟨u', s₂⟩ := r
          obtain ⟨_, husers, hnext⟩ := update_ok_elim hu
          have hmap : s₂.users.map User.id = s.users.map User.id := by
            rw [husers, updateUsers_map_id]
          refine ⟨by simp [applyOp, hu]; omega, ?_, ?_⟩
          · intro i hi
            simp only [applyOp, hu] at hi ⊢
            rw [hmap] at hi
            rw [hnext]
            exact hall i hi
          · simp only [applyOp, hu]
            rw [hmap]
            exact hnodup
  | remove id =>
      cases hr : remove s id with
      | error e => simpa [applyOp, hr] using ⟨hpos, hall, hnodup⟩
      | ok s₂ =>
          obtain ⟨hsub, hnext⟩ := remove_ok_sublist hr
          have hsubmap := hsub.map User.id
          refine ⟨by simp [applyOp, hr]; omega, ?_, ?_⟩
          · intro i hi
            simp only [applyOp, hr] at hi ⊢
            rw [hnext]
            exact hall i (hsubmap.subset hi)
          · simp only [applyOp, hr]
            exact hnodup.sublist hsubmap
  | findOne id => exact ⟨hpos, hall, hnodup⟩
  | findAll => exact ⟨hpos, hall, hnodup⟩

theorem nextId_applyOp (s : ServiceState) (op : Op) :
    s.nextId ≤ (applyOp s op).nextId := by
  cases op with
  | create dto => simp [applyOp, create]
  | update id dto =>
      cases hu : update s id dto with
      | error e => simp [applyOp, hu]
      | ok r =>
          obtain ⟨u', s₂⟩ := r
          obtain ⟨_, _, hnext⟩ := update_ok_elim hu
          simp [applyOp, hu, hnext]
  | remove id =>
      cases hr : remove s id with
      | error e => simp [applyOp, hr]
      | ok s₂ =>
          obtain ⟨_, hnext⟩ := remove_ok_sublist hr
          simp [applyOp, hr, hnext]
  | findOne id => exact le_refl _
  | findAll => exact le_refl _

theorem nextId_run (s : ServiceState) (ops : List Op) :
    s.nextId ≤ (run s ops).nextId := by
  induction ops generalizing s with
  | nil => exact le_refl _
  | cons op rest ih =>
      exact le_trans (nextId_applyOp s op) (ih (applyOp s op))

theorem inv_run {s : ServiceState} (h : Inv s) (ops : List Op) :
    Inv (run s ops) := by
  induction ops generalizing s with
  | nil => exact h
  | cons op rest ih => exact ih (inv_applyOp h op)

/-! ### The k6 load-profile script (`apps/k6/load-test.js`)

We model the HTTP traffic a single execution of each lifecycle function
emits, as a list of requests in program order. Request bodies and the
`check`/metric bookkeeping are elided: they do not influence which requests
are sent, except through the two `if` conditions modelled below. -/

/-- One HTTP request or think-time pause issued by the script. -/
inductive K6Action where
  | httpGet (url : String)
  | httpPost (url : String)
  | httpPut (url : String)
  | httpDel (url : String)
  | sleep (seconds : Nat)
deriving Repr, DecidableEq

/-- JavaScript truthiness of an optional numeric value: `undefined` and `0`
are falsy, every other number is truthy. -/
def jsTruthy : Option Nat → Bool
  | none => false
  | some n => n != 0

/-- What the script observes of the response to its `POST /users`: the
status code and `json('id')` (`none` models `undefined`). -/
structure CreateResponse where
  status : Nat
  jsonId : Option Nat
deriving Repr, DecidableEq

/-- Value of `const created = check(createRes, ...)`: `check` returns true iff every
listed predicate passed, here `r.status === 201` and
`r.json('id') !== undefined`. -/
def createdChecks (r : CreateResponse) : Bool :=
  r.status == 201 && r.jsonId.isSome

/-- URL of the collection endpoint, the template literal on BASE_URL and `/users`. -/
def usersURL (baseURL : String) : String :=
  baseURL ++ "/users"

/-- URL of a single record, the template literal on BASE_URL, `/users/` and the id. -/
def userURL (baseURL : String) (id : Nat) : String :=
  baseURL ++ "/users/" ++ toString id

/-- The `Read Operations` group: `http.get(/users)` then `http.get(/users/1)`. -/
def readOperationsGroup (baseURL : String) : List K6Action :=
  [K6Action.httpGet (usersURL baseURL), K6Action.httpGet (userURL baseURL 1)]

/-- The `Write Operations` group: `http.post(/users)`, then
`if (data.setupUserId)` a `http.put(/users/:id)` on the setup-created id,
then `if (created && createRes.json('id'))` a `http.del(/users/:id)` on the
id returned by this iteration's create. -/
def writeOperationsGroup (baseURL : String) (setupUserId : Option Nat)
    (createRes : CreateResponse) : List K6Action :=
  [K6Action.httpPost (usersURL baseURL)]
    ++ (if jsTruthy setupUserId then
          [K6Action.httpPut (userURL baseURL (setupUserId.getD 0))]
        else [])
    ++ (if createdChecks createRes && jsTruthy createRes.jsonId then
          [K6Action.httpDel (userURL baseURL (createRes.jsonId.getD 0))]
        else [])

/-- One iteration of the exported default function: the read group, the
write group, then `sleep(1)`. -/
def defaultFunction (baseURL : String) (setupUserId : Option Nat)
    (createRes : CreateResponse) : List K6Action :=
  readOperationsGroup baseURL
    ++ writeOperationsGroup baseURL setupUserId createRes
    ++ [K6Action.sleep 1]

/-- Requests of `setup()`: one `http.get(/users)` reachability probe, then one
`http.post(/users)` creating the reserved record. -/
def setupActions (baseURL : String) : List K6Action :=
  [K6Action.httpGet (usersURL baseURL), K6Action.httpPost (usersURL baseURL)]

/-- Return value of `setup()`, namely `\x7b setupUserId: setupUser.id \x7d`, where
`setupUser = createRes.json()`. -/
def setupReturn (createRes : CreateResponse) : Option Nat :=
  createRes.jsonId

/-- Requests of `teardown(data)`: `if (data.setupUserId)` one `http.del(/users/:id)` on
the reserved record's id. -/
def teardownActions (baseURL : String) (setupUserId : Option Nat) :
    List K6Action :=
  if jsTruthy setupUserId then
    [K6Action.httpDel (userURL baseURL (setupUserId.getD 0))]
  else []

/-! ### The claims -/

/-- Claim C1: `create` assigns the next value of the process-wide counter
(initialized to 4, i.e. past the seed ids 1, 2, 3, so the first `create`
returns id 4), increments the counter, appends the new record at the end of
the collection and returns it; and no later `create`, after any sequence of
operations including deletions, ever assigns that id again (the later id is
strictly larger). -/
theorem claim_C1_create_sequential_ids (s : ServiceState)
    (dto dto' : CreateUserDto) (ops : List Op) :
    (create initialState dto).1.id = 4 ∧
    (create s dto).1.id = s.nextId ∧
    (create s dto).2.nextId = s.nextId + 1 ∧
    (create s dto).2.users = s.users ++ [(create s dto).1] ∧
    (create s dto).1.id < (create (run (create s dto).2 ops) dto').1.id := by
  refine ⟨rfl, rfl, rfl, rfl, ?_⟩
  have hmono := nextId_run (create s dto).2 ops
  simp only [create] at hmono ⊢
  omega

/-- Claim C2: on an absent id, `findOne`, `update` and `remove` each fail
with (exactly) a `NotFoundException`; on a present id, none of them fails. -/
theorem claim_C2_notfound_dichotomy (s : ServiceState) (i : Nat)
    (dto : UpdateUserDto) :
    (i ∉ s.users.map User.id →
      findOne s i = .error (.notFound (notFoundMsg i)) ∧
      update s i dto = .error (.notFound (notFoundMsg i)) ∧
      remove s i = .error (.notFound (notFoundMsg i))) ∧
    (i ∈ s.users.map User.id →
      (∃ u, findOne s i = .ok u) ∧ (∃ r, update s i dto = .ok r) ∧
      (∃ s', remove s i = .ok s')) := by
  constructor
  · intro h
    exact ⟨findOne_error_of_not_mem h, update_error_of_not_mem dto h,
      remove_error_of_not_mem h⟩
  · intro h
    exact ⟨findOne_ok_of_mem h, update_ok_of_mem dto h, remove_ok_of_mem h⟩

/-- Witness for C2 at id 999 (absent) and id 1 (present) in the seeded
state. -/
theorem claim_C2_witness :
    (findOne initialState 999 = .error (.notFound (notFoundMsg 999)) ∧
      update initialState 999 ⟨none, none⟩ =
        .error (.notFound (notFoundMsg 999)) ∧
      remove initialState 999 = .error (.notFound (notFoundMsg 999))) ∧
    ((∃ u, findOne initialState 1 = .ok u) ∧
      (∃ r, update initialState 1 ⟨none, none⟩ = .ok r) ∧
      (∃ s', remove initialState 1 = .ok s')) :=
  ⟨(claim_C2_notfound_dichotomy initialState 999 ⟨none, none⟩).1 (by decide),
   (claim_C2_notfound_dichotomy initialState 1 ⟨none, none⟩).2 (by decide)⟩

/-- Claim C3: updating a present record overwrites exactly the provided
fields of that record, keeps every omitted field (and the id), returns the
updated record, and replaces only that record in the collection, in place. -/
theorem claim_C3_update_partial_fields (s : ServiceState) (i : Nat)
    (dto : UpdateUserDto) (u : User) (h : findOne s i = .ok u) :
    ∃ u' s₂, update s i dto = .ok (u', s₂) ∧
      u'.id = u.id ∧
      (∀ n, dto.name = some n → u'.name = n) ∧
      (dto.name = none → u'.name = u.name) ∧
      (∀ e, dto.email = some e → u'.email = e) ∧
      (dto.email = none → u'.email = u.email) ∧
      ∃ pre post, s.users = pre ++ u :: post ∧
        s₂.users = pre ++ u' :: post ∧ s₂.nextId = s.nextId := by
  obtain ⟨hid, pre, post, hdec, hpre⟩ := findOne_ok_decomp h
  refine ⟨assignUser u dto, { s with users := updateUsers i dto s.users },
    ?_, rfl, ?_, ?_, ?_, ?_, pre, post, hdec, ?_, rfl⟩
  · unfold update
    rw [h]
  · intro n hn
    simp [assignUser, hn]
  · intro hn
    simp [assignUser, hn]
  · intro e he
    simp [assignUser, he]
  · intro he
    simp [assignUser, he]
  · simp only
    rw [hdec, updateUsers_first i dto pre u post hpre hid]

/-- Witness for C3: rename user 1 in the seeded state, leaving the email. -/
theorem claim_C3_witness :
    ∃ u' s₂, update initialState 1 ⟨some "X", none⟩ = .ok (u', s₂) ∧
      u'.id = (1 : Nat) ∧
      (∀ n, (some "X" : Option String) = some n → u'.name = n) ∧
      ((some "X" : Option String) = none → u'.name = "Alice Johnson") ∧
      (∀ e, (none : Option String) = some e → u'.email = e) ∧
      ((none : Option String) = none → u'.email = "alice@example.com") ∧
      ∃ pre post,
        initialState.users = pre ++
          ({ id := 1, name := "Alice Johnson",
             email := "alice@example.com" } : User) :: post ∧
        s₂.users = pre ++ u' :: post ∧ s₂.nextId = initialState.nextId :=
  claim_C3_update_partial_fields initialState 1 ⟨some "X", none⟩
    { id := 1, name := "Alice Johnson", email := "alice@example.com" } rfl

/-- Claim C4: in any reachable state, deleting a present id succeeds, a
subsequent `findOne` on that id fails with `NotFoundException`, and the
length of the collection returned by `findAll` drops by exactly one. -/
theorem claim_C4_delete_then_get (ops : List Op) (i : Nat)
    (h : i ∈ (run initialState ops).users.map User.id) :
    ∃ s', remove (run initialState ops) i = .ok s' ∧
      findOne s' i = .error (.notFound (notFoundMsg i)) ∧
      (findAll s').length + 1 = (findAll (run initialState ops)).length := by
  have hinv := inv_run inv_initialState ops
  rcases remove_ok_of_mem h with ⟨s', hr⟩
  rcases remove_ok_decomp hr with ⟨pre, u, post, hdec, hid, hpre, husers, _⟩
  have hnodup := hinv.2.2
  rw [hdec] at hnodup
  simp only [List.map_append, List.map_cons] at hnodup
  have hpost : u.id ∉ post.map User.id :=
    (List.nodup_cons.mp hnodup.of_append_right).1
  refine ⟨s', hr, ?_, ?_⟩
  · apply findOne_error_of_not_mem
    rw [husers]
    intro hmem
    simp only [List.map_append, List.mem_append] at hmem
    rcases hmem with hm | hm
    · rcases List.mem_map.mp hm with ⟨x, hx, hxi⟩
      exact hpre x hx hxi
    · rw [hid] at hpost
      exact hpost hm
  · simp only [findAll]
    rw [husers, hdec]
    simp only [List.length_append, List.length_cons]
    omega

/-- Witness for C4: deleting id 1 from the seeded state. -/
theorem claim_C4_witness :
    ∃ s', remove (run initialState []) 1 = .ok s' ∧
      findOne s' 1 = .error (.notFound (notFoundMsg 1)) ∧
      (findAll s').length + 1 = (findAll (run initialState [])).length :=
  claim_C4_delete_then_get [] 1 (by decide)

/-- Claim C5: in any reachable state, `create` grows the collection returned
by `findAll` by exactly one, and `findOne` applied to the returned record's
id succeeds and returns exactly that record. -/
theorem claim_C5_create_then_get (ops : List Op) (dto : CreateUserDto) :
    (findAll (create (run initialState ops) dto).2).length =
      (findAll (run initialState ops)).length + 1 ∧
    findOne (create (run initialState ops) dto).2
        (create (run initialState ops) dto).1.id =
      .ok (create (run initialState ops) dto).1 := by
  have hinv := inv_run inv_initialState ops
  set s := run initialState ops with hs
  constructor
  · simp [findAll, create]
  · have hnone : s.users.find? (fun x => x.id == s.nextId) = none := by
      refine List.find?_eq_none.mpr fun x hx => ?_
      have hlt := (hinv.2.1 x.id (List.mem_map.mpr ⟨x, hx, rfl⟩)).2
      simp only [beq_iff_eq]
      omega
    show findOne
        { nextId := s.nextId + 1
        , users := s.users ++
            [{ id := s.nextId, name := dto.name, email := dto.email }] }
        s.nextId =
      .ok { id := s.nextId, name := dto.name, email := dto.email }
    unfold findOne
    rw [List.find?_append, hnone]
    simp

/-- Claim C6: `findOne` on a present id returns a record whose id field
equals the sought id. -/
theorem claim_C6_get_id_matches (s : ServiceState) (i : Nat)
    (h : i ∈ s.users.map User.id) :
    ∃ u, findOne s i = .ok u ∧ u.id = i := by
  rcases findOne_ok_of_mem h with ⟨u, hu⟩
  exact ⟨u, hu, (findOne_ok_decomp hu).1⟩

/-- Witness for C6 at id 2 in the seeded state. -/
theorem claim_C6_witness :
    ∃ u, findOne initialState 2 = .ok u ∧ u.id = 2 :=
  claim_C6_get_id_matches initialState 2 (by decide)

/-- Claim C7: operations are atomic: a `findOne` never changes the state,
and whenever `update` or `remove` fails (the `NotFoundException` is thrown
before any mutation of the array or the counter), the state after the call
equals the state before it. -/
theorem claim_C7_failed_ops_preserve_state (s : ServiceState) (i : Nat)
    (dto : UpdateUserDto) :
    applyOp s (.findOne i) = s ∧
    ((∃ e, update s i dto = .error e) → applyOp s (.update i dto) = s) ∧
    ((∃ e, remove s i = .error e) → applyOp s (.remove i) = s) := by
  refine ⟨rfl, ?_, ?_⟩
  · rintro ⟨e, he⟩
    simp [applyOp, he]
  · rintro ⟨e, he⟩
    simp [applyOp, he]

/-- Witness for C7 at the absent id 999 in the seeded state. -/
theorem claim_C7_witness :
    applyOp initialState (.findOne 999) = initialState ∧
    applyOp initialState (.update 999 ⟨none, none⟩) = initialState ∧
    applyOp initialState (.remove 999) = initialState :=
  ⟨(claim_C7_failed_ops_preserve_state initialState 999 ⟨none, none⟩).1,
   (claim_C7_failed_ops_preserve_state initialState 999 ⟨none, none⟩).2.1
     ⟨.notFound (notFoundMsg 999), rfl⟩,
   (claim_C7_failed_ops_preserve_state initialState 999 ⟨none, none⟩).2.2
     ⟨.notFound (notFoundMsg 999), rfl⟩⟩

/-- Claim C8: in every reachable state (the seeded initial state and after
any sequence of operations) every stored id is positive and the ids are
pairwise distinct; `findAll` returns the whole collection in its stored
(insertion) order; `update` never changes the id of any record (the list of
ids, in order, is unchanged); and `remove` deletes in place, leaving the
surviving records a sublist (same values, same relative order) of the old
collection. -/
theorem claim_C8_invariants (ops : List Op) (i : Nat) (dto : UpdateUserDto) :
    (∀ j ∈ (run initialState ops).users.map User.id, 0 < j) ∧
    ((run initialState ops).users.map User.id).Nodup ∧
    findAll (run initialState ops) = (run initialState ops).users ∧
    (∀ u' s₂, update (run initialState ops) i dto = .ok (u', s₂) →
      s₂.users.map User.id = (run initialState ops).users.map User.id) ∧
    (∀ s₂, remove (run initialState ops) i = .ok s₂ →
      s₂.users.Sublist (run initialState ops).users) := by
  have hinv := inv_run inv_initialState ops
  refine ⟨fun j hj => (hinv.2.1 j hj).1, hinv.2.2, rfl, ?_, ?_⟩
  · intro u' s₂ hu
    obtain ⟨_, husers, _⟩ := update_ok_elim hu
    rw [husers, updateUsers_map_id]
  · intro s₂ hr
    exact (remove_ok_sublist hr).1

/-- Witness for C8: the seeded state, with a concrete successful update of
id 1 leaving the id list unchanged. -/
theorem claim_C8_witness :
    ((run initialState []).users.map User.id).Nodup ∧
    (∃ u' s₂, update (run initialState []) 1 ⟨some "X", none⟩ = .ok (u', s₂) ∧
      s₂.users.map User.id = (run initialState []).users.map User.id) ∧
    (∃ s₂, remove (run initialState []) 1 = .ok s₂ ∧
      s₂.users.Sublist (run initialState []).users) :=
  ⟨(claim_C8_invariants [] 1 ⟨some "X", none⟩).2.1,
   ⟨{ id := 1, name := "X", email := "alice@example.com" },
    { nextId := 4, users :=
        [ { id := 1, name := "X", email := "alice@example.com" }
        , { id := 2, name := "Bob Smith", email := "bob@example.com" }
        , { id := 3, name := "Charlie Brown", email := "charlie@example.com" } ] },
    rfl,
    (claim_C8_invariants [] 1 ⟨some "X", none⟩).2.2.2.1 _ _ rfl⟩,
   ⟨{ nextId := 4, users :=
        [ { id := 2, name := "Bob Smith", email := "bob@example.com" }
        , { id := 3, name := "Charlie Brown", email := "charlie@example.com" } ] },
    rfl,
    (claim_C8_invariants [] 1 ⟨some "X", none⟩).2.2.2.2 _ rfl⟩⟩

/-- JavaScript truthiness of an optional id, restated as a proposition on
the underlying number (`undefined` maps to 0). -/
theorem jsTruthy_eq_decide (o : Option Nat) :
    jsTruthy o = decide (o.getD 0 ≠ 0) := by
  cases o with
  | none => simp [jsTruthy]
  | some n => by_cases hn : n = 0 <;> simp [jsTruthy, hn]

/-- The script's delete condition `created && createRes.json('id')`,
restated as a proposition on the response. -/
theorem deleteCond_eq_decide (r : CreateResponse) :
    (createdChecks r && jsTruthy r.jsonId) =
      decide (r.status = 201 ∧ r.jsonId.getD 0 ≠ 0) := by
  rw [jsTruthy_eq_decide]
  cases hj : r.jsonId <;>
    by_cases hs2 : r.status = 201 <;>
      simp [createdChecks, hj, hs2]

/-- Claim C9: each iteration of the default function issues, in order,
GET `/users`, GET `/users/1`, POST `/users`, then PUT on the setup-created
id exactly when setup produced a (truthy) id, then DELETE on the id the
iteration's own create returned exactly when that create passed its checks
(status 201 and a defined id) and the id is truthy, then a 1-second sleep;
`setup` issues one GET `/users` reachability probe and one POST `/users`
and returns the created record's id; `teardown` issues exactly one DELETE
of the setup-created record when its id is truthy, and nothing otherwise. -/
theorem claim_C9_k6_lifecycle (baseURL : String) (sid : Option Nat)
    (r : CreateResponse) :
    defaultFunction baseURL sid r =
      [K6Action.httpGet (usersURL baseURL),
        K6Action.httpGet (userURL baseURL 1),
        K6Action.httpPost (usersURL baseURL)]
      ++ (if sid.getD 0 ≠ 0 then
            [K6Action.httpPut (userURL baseURL (sid.getD 0))]
          else [])
      ++ (if r.status = 201 ∧ r.jsonId.getD 0 ≠ 0 then
            [K6Action.httpDel (userURL baseURL (r.jsonId.getD 0))]
          else [])
      ++ [K6Action.sleep 1] ∧
    setupActions baseURL =
      [K6Action.httpGet (usersURL baseURL),
        K6Action.httpPost (usersURL baseURL)] ∧
    setupReturn r = r.jsonId ∧
    teardownActions baseURL sid =
      (if sid.getD 0 ≠ 0 then
        [K6Action.httpDel (userURL baseURL (sid.getD 0))]
      else []) := by
  refine ⟨?_, rfl, rfl, ?_⟩
  · unfold defaultFunction readOperationsGroup writeOperationsGroup
    rw [jsTruthy_eq_decide, deleteCond_eq_decide]
    simp
  · unfold teardownActions
    rw [jsTruthy_eq_decide]
    simp

/-- Claim C10: `remove` on a present id deletes exactly one element, namely
the leftmost record whose id matches; every other record keeps its field
values and its position relative to the other survivors, and the counter is
untouched. -/
theorem claim_C10_delete_first_match (s : ServiceState) (i : Nat)
    (s' : ServiceState) (h : remove s i = .ok s') :
    ∃ pre u post, s.users = pre ++ u :: post ∧ u.id = i ∧
      (∀ x ∈ pre, x.id ≠ i) ∧ s'.users = pre ++ post ∧ s'.nextId = s.nextId :=
  remove_ok_decomp h

/-- Witness for C10: deleting id 2 from the seeded state. -/
theorem claim_C10_witness :
    ∃ pre u post, initialState.users = pre ++ u :: post ∧ u.id = 2 ∧
      (∀ x ∈ pre, x.id ≠ 2) ∧
      ({ nextId := 4, users :=
          [ { id := 1, name := "Alice Johnson", email := "alice@example.com" }
          , { id := 3, name := "Charlie Brown",
              email := "charlie@example.com" } ] } : ServiceState).users =
        pre ++ post ∧
      ({ nextId := 4, users :=
          [ { id := 1, name := "Alice Johnson", email := "alice@example.com" }
          , { id := 3, name := "Charlie Brown",
              email := "charlie@example.com" } ] } : ServiceState).nextId =
        initialState.nextId :=
  claim_C10_delete_first_match initialState 2 _ rfl

end NestjsK6
